import Mathlib

/-!
Shallow embedding of the `cmap` concurrent map package
(`src/concurrent_map.go`) and proofs about it.

Modelling choices:
- a Go `map[K]V` (the `items` field of one shard) is an association list
  `List (K × V)`; `mapGet`, `mapSet` and `mapDel` embed Go map lookup,
  insert-or-overwrite and `delete`;
- the process-wide mutable global `SHARD_COUNT` is passed explicitly, as a
  `sc : Nat` argument, to every function of the source that reads it
  (`create`, `GetShard`, `Count`, `Keys`, `snapshot`); the argument is the
  value of the global at the moment that function runs, so a change of the
  global between two calls is modelled by passing different `sc` values;
- Go runtime panics are modelled by `Except GoError`; `uint` arithmetic
  cannot be negative, so `Nat` is used; a Go string is its byte sequence,
  `List Nat`;
- the Go zero value of `V` (what `items[key]` yields for an absent key) is
  `default` from an `Inhabited V` instance;
- concurrency is modelled sequentially: every operation is an atomic step,
  which matches the per-shard locking discipline for single operations.
-/

set_option autoImplicit false

namespace Cmap

/-- Runtime faults the embedded operations can raise, each standing for a
Go panic or crash: `indexOutOfRange` for a slice index out of bounds,
`divideByZero` for `%` with a zero divisor, `nilFunctionCall` for the
nil-pointer dereference of calling a nil function value (the `sharding`
field of a zero-value map), `notInitialized` for the explicit panic in
`snapshot` whose message identifies the map as not initialized, and
`snapshotMismatch` for the crash or deadlock of the fan-out goroutines of
`snapshot`/`Keys` when the current global shard count differs from the
length of the constructed shard slice. -/
inductive GoError where
  | indexOutOfRange
  | divideByZero
  | nilFunctionCall
  | notInitialized
  | snapshotMismatch
  deriving DecidableEq

/-- One shard of the map: the Go `map[K]V` held by `ConcurrentMapShared`,
as an association list. -/
abbrev Shard (K V : Type) := List (K × V)

variable {K V B : Type}

/-- Go map lookup `v, ok := items[key]`: the first binding of `k`, if any. -/
def mapGet [DecidableEq K] : Shard K V → K → Option V
  | [], _ => none
  | (k2, v) :: rest, k => if k2 = k then some v else mapGet rest k

/-- Go map write `items[key] = value`: overwrite the binding of `k` if
present, otherwise append a new binding. -/
def mapSet [DecidableEq K] : Shard K V → K → V → Shard K V
  | [], k, v => [(k, v)]
  | (k2, v2) :: rest, k, v =>
      if k2 = k then (k, v) :: rest else (k2, v2) :: mapSet rest k v

/-- Go `delete(items, key)`: remove every binding of `k`. -/
def mapDel [DecidableEq K] : Shard K V → K → Shard K V
  | [], _ => []
  | (k2, v2) :: rest, k =>
      if k2 = k then mapDel rest k else (k2, v2) :: mapDel rest k

/-- The keys of a shard, in binding order. -/
def shardKeys (s : Shard K V) : List K := s.map Prod.fst

/-- The `ConcurrentMap[K, V]` struct: the slice of shards (each reduced to
its `items` map) and the sharding function. The sharding function returns
the Go `uint32`, modelled as a `Nat` (its callers immediately widen it to
`uint`); a Go function value can be nil, so the field is an `Option`, and
the zero value of the struct has `none` here (a nil function pointer),
while every factory stores an actual function. -/
structure ConcurrentMap (K V : Type) where
  shards : List (Shard K V)
  sharding : Option (K → Nat)

/-- The factory `create`: `sc` shards, each an empty map, with `sc` read
from the global `SHARD_COUNT` at construction time. -/
def create (sc : Nat) (sharding : K → Nat) : ConcurrentMap K V :=
  { shards := List.replicate sc [], sharding := some sharding }

/-- The factory `NewWithCustomShardingFunction`. -/
def NewWithCustomShardingFunction (sc : Nat) (sharding : K → Nat) :
    ConcurrentMap K V :=
  create sc sharding

/-- The Go loop of `fnv32`, indexing the bytes of the key by position:
`hash := 2166136261; for i: hash *= 16777619 (uint32, wraps mod 2^32);
hash ^= uint32(key[i])`. -/
def fnv32 (key : List Nat) : Nat :=
  (List.range key.length).foldl
    (fun hash i => ((hash * 16777619) % 4294967296) ^^^ key.getD i 0)
    2166136261

/-- `strfnv32` stringifies the key with its `String()` method (`toStr`
here) and hashes the result with `fnv32`. -/
def strfnv32 {A : Type} (toStr : A → List Nat) (k : A) : Nat :=
  fnv32 (toStr k)

/-- The factory `New`: string keys, hashed by `fnv32`. -/
def New (V2 : Type) (sc : Nat) : ConcurrentMap (List Nat) V2 :=
  create sc fnv32

/-- The factory `NewStringer`: keys with a `String()` method, hashed by
`strfnv32`. -/
def NewStringer {A : Type} (V2 : Type) (sc : Nat) (toStr : A → List Nat) :
    ConcurrentMap A V2 :=
  create sc (strfnv32 toStr)

/-- FNV-1a 32-bit as the spec words it: start from 2166136261 and, for
each byte `b` of the key in order, `hash = (hash * 16777619) xor b`, all
arithmetic modulo 2^32. -/
def fnv32Spec (key : List Nat) : Nat :=
  key.foldl
    (fun hash b => (((hash * 16777619) % 4294967296) ^^^ b) % 4294967296)
    2166136261

/-- The shard index computed by `GetShard`:
`uint(m.sharding(key)) % uint(SHARD_COUNT)`, where `sc` is the value of the
global `SHARD_COUNT` when `GetShard` runs. Go evaluates `m.sharding(key)`
first, so a nil sharding function (zero-value map) panics with a
nil-pointer dereference before any arithmetic; then `% 0` panics, and an
index beyond the length of the shard slice panics. -/
def getShardIdx (sc : Nat) (m : ConcurrentMap K V) (k : K) :
    Except GoError Nat :=
  match m.sharding with
  | none => .error .nilFunctionCall
  | some f =>
      if sc = 0 then .error .divideByZero
      else if f k % sc < m.shards.length then .ok (f k % sc)
      else .error .indexOutOfRange

/-- `GetShard` returns the shard under the given key. -/
def GetShard (sc : Nat) (m : ConcurrentMap K V) (k : K) :
    Except GoError (Shard K V) :=
  (getShardIdx sc m k).map fun i => m.shards.getD i []

/-- Build the map that results from replacing shard `i` of `m` with `s`. -/
def withShard (m : ConcurrentMap K V) (i : Nat) (s : Shard K V) :
    ConcurrentMap K V :=
  { m with shards := m.shards.set i s }

/-- `Set` stores `value` under `key` in the shard of `key`. -/
def Set [DecidableEq K] (sc : Nat) (m : ConcurrentMap K V) (k : K) (v : V) :
    Except GoError (ConcurrentMap K V) :=
  (getShardIdx sc m k).map fun i =>
    withShard m i (mapSet (m.shards.getD i []) k v)

/-- `Get` retrieves `(val, ok)` from the shard of `key`; `val` is the Go
zero value when absent. -/
def Get [DecidableEq K] [Inhabited V] (sc : Nat) (m : ConcurrentMap K V)
    (k : K) : Except GoError (V × Bool) :=
  (getShardIdx sc m k).map fun i =>
    ((mapGet (m.shards.getD i []) k).getD default,
      (mapGet (m.shards.getD i []) k).isSome)

/-- `Has` reports whether `key` is present. -/
def Has [DecidableEq K] (sc : Nat) (m : ConcurrentMap K V) (k : K) :
    Except GoError Bool :=
  (getShardIdx sc m k).map fun i => (mapGet (m.shards.getD i []) k).isSome

/-- `Remove` deletes `key` from its shard. -/
def Remove [DecidableEq K] (sc : Nat) (m : ConcurrentMap K V) (k : K) :
    Except GoError (ConcurrentMap K V) :=
  (getShardIdx sc m k).map fun i =>
    withShard m i (mapDel (m.shards.getD i []) k)

/-- `Pop` returns `(v, exists)` for `key` and deletes it, in one shard
lock acquisition. -/
def Pop [DecidableEq K] [Inhabited V] (sc : Nat) (m : ConcurrentMap K V)
    (k : K) : Except GoError (V × Bool × ConcurrentMap K V) :=
  (getShardIdx sc m k).map fun i =>
    ((mapGet (m.shards.getD i []) k).getD default,
      (mapGet (m.shards.getD i []) k).isSome,
      withShard m i (mapDel (m.shards.getD i []) k))

/-- `SetIfAbsent` stores `value` under `key` when no value was associated
with it, and returns whether it stored. -/
def SetIfAbsent [DecidableEq K] (sc : Nat) (m : ConcurrentMap K V) (k : K)
    (v : V) : Except GoError (Bool × ConcurrentMap K V) :=
  (getShardIdx sc m k).map fun i =>
    match mapGet (m.shards.getD i []) k with
    | some _ => (false, m)
    | none => (true, withShard m i (mapSet (m.shards.getD i []) k v))

/-- `Upsert`: `v, ok := items[key]; res = cb(ok, v, value);
items[key] = res; return res`. -/
def Upsert [DecidableEq K] [Inhabited V] (sc : Nat) (m : ConcurrentMap K V)
    (k : K) (v : V) (cb : Bool → V → V → V) :
    Except GoError (V × ConcurrentMap K V) :=
  (getShardIdx sc m k).map fun i =>
    let s := m.shards.getD i []
    let res := cb (mapGet s k).isSome ((mapGet s k).getD default) v
    (res, withShard m i (mapSet s k res))

/-- `RemoveCb`: `v, ok := items[key]; remove := cb(key, v, ok);
if remove && ok { delete }; return remove`. -/
def RemoveCb [DecidableEq K] [Inhabited V] (sc : Nat) (m : ConcurrentMap K V)
    (k : K) (cb : K → V → Bool → Bool) :
    Except GoError (Bool × ConcurrentMap K V) :=
  (getShardIdx sc m k).map fun i =>
    let s := m.shards.getD i []
    let remove := cb k ((mapGet s k).getD default) (mapGet s k).isSome
    if remove && (mapGet s k).isSome then
      (remove, withShard m i (mapDel s k))
    else (remove, m)

/-- `Count` sums `len(shard.items)` for `i` from `0` to the current global
`SHARD_COUNT`, panicking with an index error as soon as `i` reaches the
length of the shard slice. -/
def Count (sc : Nat) (m : ConcurrentMap K V) : Except GoError Nat :=
  if sc ≤ m.shards.length then
    .ok (((List.range sc).map fun i => (m.shards.getD i []).length).sum)
  else .error .indexOutOfRange

/-- `IsEmpty` is `Count() == 0`. -/
def IsEmpty (sc : Nat) (m : ConcurrentMap K V) : Except GoError Bool :=
  (Count sc m).map fun c => c = 0

/-- `snapshot` panics with the message identifying the map as not
initialized when the shard slice is empty; otherwise it copies each shard
into a buffered channel. It allocates `SHARD_COUNT` channels and adds
`SHARD_COUNT` to the wait group but ranges over `m.shards`, so when the
current global differs from the constructed length the fan-out goroutines
crash on an out-of-range channel index (global smaller) or the wait group
never reaches zero (global larger); both are `snapshotMismatch` here. -/
def snapshot (sc : Nat) (m : ConcurrentMap K V) :
    Except GoError (List (Shard K V)) :=
  if m.shards.length = 0 then .error .notInitialized
  else if sc = m.shards.length then .ok m.shards
  else .error .snapshotMismatch

/-- `IterBuffered` drains the snapshot channels into one stream; the
cross-shard order is unspecified in Go and taken here as shard order. -/
def IterBuffered (sc : Nat) (m : ConcurrentMap K V) :
    Except GoError (List (K × V)) :=
  (snapshot sc m).map List.flatten

/-- `Iter` streams the same elements as `IterBuffered`. -/
def Iter (sc : Nat) (m : ConcurrentMap K V) : Except GoError (List (K × V)) :=
  (snapshot sc m).map List.flatten

/-- `Items` inserts every streamed tuple into a fresh Go map `tmp`. -/
def Items [DecidableEq K] (sc : Nat) (m : ConcurrentMap K V) :
    Except GoError (Shard K V) :=
  (IterBuffered sc m).map fun l =>
    l.foldl (fun tmp p => mapSet tmp p.1 p.2) []

/-- `IterCb` visits the bindings shard by shard, ranging over `m.shards`
only: it never reads the global shard count and never panics, even on a
zero-value map. The visit sequence it feeds to the callback is returned. -/
def IterCb (m : ConcurrentMap K V) : List (K × V) :=
  m.shards.flatten

/-- `Keys` first calls `Count` (which panics when the global exceeds the
shard slice length), then fans out one goroutine per shard while sizing
the wait group from the global, so a global below the constructed length
drives the wait group counter negative: a crash, `snapshotMismatch`. -/
def Keys (sc : Nat) (m : ConcurrentMap K V) : Except GoError (List K) :=
  match Count sc m with
  | .error e => .error e
  | .ok _ =>
      if sc = m.shards.length then .ok (m.shards.flatten.map Prod.fst)
      else .error .snapshotMismatch

/-- `Clear` removes, one `Remove` at a time, every key streamed by
`IterBuffered`. -/
def Clear [DecidableEq K] (sc : Nat) (m : ConcurrentMap K V) :
    Except GoError (ConcurrentMap K V) :=
  (IterBuffered sc m).bind fun l =>
    l.foldl (fun acc p => acc.bind fun m2 => Remove sc m2 p.1) (.ok m)

/-- Modelled from the spec: the external JSON serialization collaborator
(the `jsoniter` library, which is not part of this repository). The core
only hands it a plain key-to-value mapping (the `tmp` Go map, canonically
an association list here) and receives one back; `marshal` embeds
`json.Marshal` (which can fail with an encoder error) and `unmarshal`
embeds `json.Unmarshal` (which can fail with a decode error). -/
structure Codec (K V B : Type) where
  marshal : List (K × V) → Except String B
  unmarshal : B → Except String (List (K × V))

/-- `MarshalJSON` builds the `tmp` map exactly as `Items` does and hands
it to the external encoder. -/
def MarshalJSON [DecidableEq K] (c : Codec K V B) (sc : Nat)
    (m : ConcurrentMap K V) : Except GoError (Except String B) :=
  (Items sc m).map c.marshal

/-- `UnmarshalJSON` decodes into a fresh temporary map first; on a decode
error it returns that error with the map untouched, otherwise it runs one
`Set` per decoded pair. The pair returned is the Go error result and the
final state of the receiver. -/
def UnmarshalJSON [DecidableEq K] (c : Codec K V B) (sc : Nat)
    (m : ConcurrentMap K V) (b : B) :
    Option String × Except GoError (ConcurrentMap K V) :=
  match c.unmarshal b with
  | .error e => (some e, .ok m)
  | .ok tmp =>
      (none, tmp.foldl (fun acc p => acc.bind fun m2 => Set sc m2 p.1 p.2)
        (.ok m))

/-- One keyed mutating call of the public surface, for stating frame and
persistence properties over arbitrary interleaved operations. -/
inductive Op (K V : Type) where
  | set (k : K) (v : V)
  | remove (k : K)
  | pop (k : K)
  | setIfAbsent (k : K) (v : V)
  | upsert (k : K) (v : V) (cb : Bool → V → V → V)
  | removeCb (k : K) (cb : K → V → Bool → Bool)

/-- The key an operation targets. -/
def Op.key : Op K V → K
  | .set k _ => k
  | .remove k => k
  | .pop k => k
  | .setIfAbsent k _ => k
  | .upsert k _ _ => k
  | .removeCb k _ => k

/-- Run one operation, keeping only the resulting map state. -/
def applyOp [DecidableEq K] [Inhabited V] (sc : Nat) (m : ConcurrentMap K V) :
    Op K V → Except GoError (ConcurrentMap K V)
  | .set k v => Set sc m k v
  | .remove k => Remove sc m k
  | .pop k => (Pop sc m k).map fun r => r.2.2
  | .setIfAbsent k v => (SetIfAbsent sc m k v).map Prod.snd
  | .upsert k v cb => (Upsert sc m k v cb).map Prod.snd
  | .removeCb k cb => (RemoveCb sc m k cb).map Prod.snd

/-- Run a sequence of operations left to right. -/
def runOps [DecidableEq K] [Inhabited V] (sc : Nat) (m : ConcurrentMap K V)
    (ops : List (Op K V)) : Except GoError (ConcurrentMap K V) :=
  ops.foldl (fun acc op => acc.bind fun m2 => applyOp sc m2 op) (.ok m)

/-- The zero-value `ConcurrentMap` of Go, never passed through a factory:
its shard slice is empty and its `sharding` field is a nil function
pointer, so calling it panics with a nil dereference. -/
def zeroValueMap : ConcurrentMap K V :=
  { shards := [], sharding := none }

/-- Left-biased choice on `Option`, the composition shape of repeated map
overwrites; used only to state lookup lemmas. -/
def optOr {A : Type} (a b : Option A) : Option A :=
  match a with
  | some x => some x
  | none => b

/-- The sharding function of a map known to carry one (every factory-built
map does); the fallback is never reached for such maps. Used only to state
lemmas. -/
def shardingD (m : ConcurrentMap K V) : K → Nat :=
  m.sharding.getD (fun _ => 0)

/-- Lookup of a key through the routing of the current global `sc`: what
the shard selected for `k` currently binds to `k`. -/
def cmGet [DecidableEq K] (sc : Nat) (m : ConcurrentMap K V) (k : K) :
    Option V :=
  mapGet (m.shards.getD (shardingD m k % sc) []) k

/-- The state invariant of maps reachable from a factory under an
unchanged global `sc`: the map carries a sharding function, the shard
slice has length `sc`, `sc` is positive, every key present in a shard is
routed to that shard, and each shard binds each key at most once. -/
def Consistent [DecidableEq K] (sc : Nat) (m : ConcurrentMap K V) : Prop :=
  m.sharding.isSome ∧ m.shards.length = sc ∧ 0 < sc ∧
    (∀ i k, i < sc → (mapGet (m.shards.getD i []) k).isSome →
      shardingD m k % sc = i) ∧
    (∀ i, i < sc → (shardKeys (m.shards.getD i [])).Nodup)

/-! Lemmas about the association-list embedding of one Go map shard. -/

theorem mapGet_mapSet [DecidableEq K] (s : Shard K V) (k k2 : K) (v : V) :
    mapGet (mapSet s k v) k2 = if k = k2 then some v else mapGet s k2 := by
  induction s with
  | nil => simp [mapSet, mapGet]
  | cons p rest ih =>
      obtain ⟨k3, v3⟩ := p
      simp only [mapSet, mapGet]
      by_cases h : k3 = k
      · rw [if_pos h]
        simp only [mapGet]
        by_cases h2 : k = k2
        · rw [if_pos h2, if_pos h2]
        · rw [if_neg h2, if_neg h2, if_neg (fun hh => h2 (h.symm.trans hh))]
      · rw [if_neg h]
        simp only [mapGet]
        rw [ih]
        by_cases h2 : k3 = k2
        · rw [if_pos h2, if_neg (fun hh : k = k2 => h (h2.trans hh.symm)),
            if_pos h2]
        · rw [if_neg h2, if_neg h2]

theorem mapGet_mapDel [DecidableEq K] (s : Shard K V) (k k2 : K) :
    mapGet (mapDel s k) k2 = if k = k2 then none else mapGet s k2 := by
  induction s with
  | nil => simp [mapDel, mapGet]
  | cons p rest ih =>
      obtain ⟨k3, v3⟩ := p
      simp only [mapDel, mapGet]
      by_cases h : k3 = k
      · rw [if_pos h, ih]
        by_cases h2 : k = k2
        · rw [if_pos h2, if_pos h2]
        · rw [if_neg h2, if_neg h2, if_neg (fun hh => h2 (h.symm.trans hh))]
      · rw [if_neg h]
        simp only [mapGet]
        rw [ih]
        by_cases h2 : k3 = k2
        · rw [if_pos h2, if_neg (fun hh : k = k2 => h (h2.trans hh.symm)),
            if_pos h2]
        · rw [if_neg h2, if_neg h2]

theorem mapGet_append [DecidableEq K] (s t : Shard K V) (k : K) :
    mapGet (s ++ t) k = optOr (mapGet s k) (mapGet t k) := by
  induction s with
  | nil => simp [mapGet, optOr]
  | cons p rest ih =>
      obtain ⟨k3, v3⟩ := p
      by_cases h : k3 = k <;> simp [mapGet, h, ih, optOr]

theorem mapGet_eq_none_iff [DecidableEq K] (s : Shard K V) (k : K) :
    mapGet s k = none ↔ k ∉ shardKeys s := by
  induction s with
  | nil => simp [mapGet, shardKeys]
  | cons p rest ih =>
      obtain ⟨k3, v3⟩ := p
      by_cases h : k3 = k
      · simp [mapGet, shardKeys, h, ih]
      · simp [mapGet, shardKeys, h, ih]
        tauto

theorem mapGet_reverse_eq_none [DecidableEq K] (s : Shard K V) (k : K) :
    mapGet s.reverse k = none ↔ mapGet s k = none := by
  rw [mapGet_eq_none_iff, mapGet_eq_none_iff]
  unfold shardKeys
  rw [List.map_reverse, List.mem_reverse]

theorem mapGet_reverse_of_nodup [DecidableEq K] (s : Shard K V) (k : K)
    (h : (shardKeys s).Nodup) : mapGet s.reverse k = mapGet s k := by
  induction s with
  | nil => rfl
  | cons p rest ih =>
      obtain ⟨k3, v3⟩ := p
      rw [shardKeys, List.map_cons, List.nodup_cons] at h
      rw [List.reverse_cons, mapGet_append, ih h.2]
      by_cases h2 : k3 = k
      · subst h2
        have hnone : mapGet rest k3 = none := by
          rw [mapGet_eq_none_iff]; exact h.1
        simp [mapGet, hnone, optOr]
      · cases hr : mapGet rest k <;> simp [mapGet, h2, optOr, hr]

theorem mem_shardKeys_mapSet [DecidableEq K] (s : Shard K V) (k k2 : K)
    (v : V) (h : k2 ∈ shardKeys (mapSet s k v)) :
    k2 = k ∨ k2 ∈ shardKeys s := by
  by_cases h2 : k = k2
  · exact Or.inl h2.symm
  · right
    have h3 : mapGet (mapSet s k v) k2 ≠ none := by
      rw [Ne, mapGet_eq_none_iff]
      exact fun hc => hc h
    rw [mapGet_mapSet, if_neg h2] at h3
    by_contra hc
    exact h3 ((mapGet_eq_none_iff s k2).mpr hc)

theorem nodup_shardKeys_mapSet [DecidableEq K] (s : Shard K V) (k : K)
    (v : V) (h : (shardKeys s).Nodup) : (shardKeys (mapSet s k v)).Nodup := by
  induction s with
  | nil => simp [mapSet, shardKeys]
  | cons p rest ih =>
      obtain ⟨k3, v3⟩ := p
      rw [shardKeys, List.map_cons, List.nodup_cons] at h
      by_cases h3 : k3 = k
      · subst h3
        rw [shardKeys, mapSet, if_pos rfl, List.map_cons, List.nodup_cons]
        exact ⟨h.1, h.2⟩
      · rw [shardKeys, mapSet, if_neg h3, List.map_cons, List.nodup_cons]
        refine ⟨fun hmem => ?_, ih h.2⟩
        rcases mem_shardKeys_mapSet rest k k3 v hmem with h4 | h4
        · exact h3 h4
        · exact h.1 h4

/-! Lemmas about `optOr`. -/

theorem optOr_none_left {A : Type} (b : Option A) : optOr none b = b := rfl

theorem optOr_none_right {A : Type} (a : Option A) : optOr a none = a := by
  cases a <;> rfl

theorem optOr_assoc {A : Type} (a b c : Option A) :
    optOr (optOr a b) c = optOr a (optOr b c) := by
  cases a <;> rfl

/-! Lemmas about list indexing used for the shard slice. -/

theorem getD_set_self {A : Type} (l : List A) (i : Nat) (a d : A)
    (h : i < l.length) : (l.set i a).getD i d = a := by
  rw [List.getD_eq_getElem?_getD, List.getElem?_set, if_pos rfl, if_pos h]
  rfl

theorem getD_set_ne {A : Type} (l : List A) (i j : Nat) (a d : A)
    (h : i ≠ j) : (l.set i a).getD j d = l.getD j d := by
  rw [List.getD_eq_getElem?_getD, List.getElem?_set, if_neg h,
    ← List.getD_eq_getElem?_getD]

theorem getD_replicate {A : Type} (n i : Nat) (a : A) :
    (List.replicate n a).getD i a = a := by
  rw [List.getD_eq_getElem?_getD, List.getElem?_replicate]
  by_cases h : i < n <;> simp [h]

/-! Lemmas about `Except`. -/

theorem except_map_ok {E A C : Type} {f : A → C} {e : Except E A} {y : C}
    (h : e.map f = .ok y) : ∃ x, e = .ok x ∧ f x = y := by
  cases e with
  | error e2 => simp [Except.map] at h
  | ok x => exact ⟨x, rfl, by simpa [Except.map] using h⟩

theorem except_map_error {E A C : Type} {f : A → C} {e : Except E A}
    {e2 : E} (h : e = .error e2) : e.map f = .error e2 := by
  rw [h]; rfl

/-! Lemmas about shard routing and shard replacement. -/

theorem sharding_eq_shardingD {m : ConcurrentMap K V}
    (h : m.sharding.isSome) : m.sharding = some (shardingD m) := by
  cases hs : m.sharding with
  | none => rw [hs] at h; cases h
  | some f =>
      unfold shardingD
      rw [hs]
      rfl

theorem getShardIdx_ok_elim {sc : Nat} {m : ConcurrentMap K V} {k : K}
    {i : Nat} (h : getShardIdx sc m k = .ok i) :
    m.sharding.isSome ∧ sc ≠ 0 ∧ shardingD m k % sc = i ∧
      i < m.shards.length := by
  unfold getShardIdx at h
  cases hs : m.sharding with
  | none =>
      simp only [hs] at h
      cases h
  | some f =>
      simp only [hs] at h
      have hf : shardingD m = f := by
        unfold shardingD
        rw [hs]
        rfl
      by_cases h0 : sc = 0
      · rw [if_pos h0] at h; cases h
      · rw [if_neg h0] at h
        by_cases h1 : f k % sc < m.shards.length
        · rw [if_pos h1] at h
          injection h with h2
          refine ⟨rfl, h0, ?_, h2 ▸ h1⟩
          rw [hf]
          exact h2
        · rw [if_neg h1] at h; cases h

theorem getShardIdx_intro {sc : Nat} {m : ConcurrentMap K V} {k : K}
    {f : K → Nat} (hs : m.sharding = some f) (h0 : sc ≠ 0)
    (h1 : f k % sc < m.shards.length) :
    getShardIdx sc m k = .ok (f k % sc) := by
  unfold getShardIdx
  simp only [hs]
  rw [if_neg h0, if_pos h1]

theorem withShard_sharding (m : ConcurrentMap K V) (i : Nat) (s : Shard K V) :
    (withShard m i s).sharding = m.sharding := rfl

theorem shardingD_withShard (m : ConcurrentMap K V) (i : Nat)
    (s : Shard K V) : shardingD (withShard m i s) = shardingD m := rfl

theorem withShard_length (m : ConcurrentMap K V) (i : Nat) (s : Shard K V) :
    (withShard m i s).shards.length = m.shards.length :=
  List.length_set m.shards i s

theorem getShardIdx_withShard (sc : Nat) (m : ConcurrentMap K V) (i : Nat)
    (s : Shard K V) (k : K) :
    getShardIdx sc (withShard m i s) k = getShardIdx sc m k := by
  obtain ⟨shs, shf⟩ := m
  unfold getShardIdx withShard
  cases shf with
  | none => rfl
  | some f => simp [List.length_set]

theorem getD_withShard_self (m : ConcurrentMap K V) (i : Nat) (s : Shard K V)
    (h : i < m.shards.length) : (withShard m i s).shards.getD i [] = s :=
  getD_set_self m.shards i s [] h

theorem getD_withShard_ne (m : ConcurrentMap K V) (i j : Nat) (s : Shard K V)
    (h : i ≠ j) : (withShard m i s).shards.getD j [] = m.shards.getD j [] :=
  getD_set_ne m.shards i j s [] h

theorem Get_withShard [DecidableEq K] [Inhabited V] (sc : Nat)
    (m : ConcurrentMap K V) (i : Nat) (s : Shard K V) (k2 : K)
    (hs : mapGet s k2 = mapGet (m.shards.getD i []) k2) :
    Get sc (withShard m i s) k2 = Get sc m k2 := by
  unfold Get
  rw [getShardIdx_withShard]
  cases hidx : getShardIdx sc m k2 with
  | error e => rfl
  | ok j =>
      obtain ⟨hsome, h0, hj, hlen⟩ := getShardIdx_ok_elim hidx
      simp only [Except.map]
      by_cases hij : j = i
      · subst hij
        rw [getD_withShard_self m j s hlen, hs]
      · rw [getD_withShard_ne m i j s (fun hh => hij hh.symm)]

/-! Elimination lemmas for the keyed operations: what a successful call
returns and what state it leaves. -/

theorem Set_ok_elim [DecidableEq K] {sc : Nat} {m m2 : ConcurrentMap K V}
    {k : K} {v : V} (h : Set sc m k v = .ok m2) :
    ∃ i, getShardIdx sc m k = .ok i ∧
      m2 = withShard m i (mapSet (m.shards.getD i []) k v) := by
  obtain ⟨i, hi, heq⟩ := except_map_ok h
  exact ⟨i, hi, heq.symm⟩

theorem Remove_ok_elim [DecidableEq K] {sc : Nat} {m m2 : ConcurrentMap K V}
    {k : K} (h : Remove sc m k = .ok m2) :
    ∃ i, getShardIdx sc m k = .ok i ∧
      m2 = withShard m i (mapDel (m.shards.getD i []) k) := by
  obtain ⟨i, hi, heq⟩ := except_map_ok h
  exact ⟨i, hi, heq.symm⟩

theorem Get_after_Set_aux [DecidableEq K] [Inhabited V] {sc : Nat}
    {m m2 : ConcurrentMap K V} {k : K} {v : V} (h : Set sc m k v = .ok m2) :
    Get sc m2 k = .ok (v, true) := by
  obtain ⟨i, hi, heq⟩ := Set_ok_elim h
  obtain ⟨hsome, h0, hidx, hlen⟩ := getShardIdx_ok_elim hi
  subst heq
  unfold Get
  rw [getShardIdx_withShard, hi]
  simp only [Except.map]
  rw [getD_withShard_self m i _ hlen, mapGet_mapSet, if_pos rfl]
  rfl

theorem Get_after_Remove_aux [DecidableEq K] [Inhabited V] {sc : Nat}
    {m m2 : ConcurrentMap K V} {k : K} (h : Remove sc m k = .ok m2) :
    Get sc m2 k = .ok (default, false) := by
  obtain ⟨i, hi, heq⟩ := Remove_ok_elim h
  obtain ⟨hsome, h0, hidx, hlen⟩ := getShardIdx_ok_elim hi
  subst heq
  unfold Get
  rw [getShardIdx_withShard, hi]
  simp only [Except.map]
  rw [getD_withShard_self m i _ hlen, mapGet_mapDel, if_pos rfl]
  rfl

/-! The frame property: an operation keyed on one key never changes what
`Get` observes at a different key. -/

theorem applyOp_frame_aux [DecidableEq K] [Inhabited V] {sc : Nat}
    {m m2 : ConcurrentMap K V} {op : Op K V} {k2 : K}
    (h : applyOp sc m op = .ok m2) (hk : op.key ≠ k2) :
    Get sc m2 k2 = Get sc m k2 := by
  cases op with
  | set k v =>
      have hk2 : k ≠ k2 := hk
      obtain ⟨i, hi, heq⟩ := Set_ok_elim (show Set sc m k v = .ok m2 from h)
      subst heq
      exact Get_withShard sc m i _ k2 (by rw [mapGet_mapSet, if_neg hk2])
  | remove k =>
      have hk2 : k ≠ k2 := hk
      obtain ⟨i, hi, heq⟩ :=
        Remove_ok_elim (show Remove sc m k = .ok m2 from h)
      subst heq
      exact Get_withShard sc m i _ k2 (by rw [mapGet_mapDel, if_neg hk2])
  | pop k =>
      have hk2 : k ≠ k2 := hk
      obtain ⟨r, hr, heq⟩ :=
        except_map_ok (show (Pop sc m k).map (fun r => r.2.2) = .ok m2 from h)
      obtain ⟨i, hi, heq2⟩ := except_map_ok hr
      rw [← heq, ← heq2]
      exact Get_withShard sc m i _ k2 (by rw [mapGet_mapDel, if_neg hk2])
  | setIfAbsent k v =>
      have hk2 : k ≠ k2 := hk
      obtain ⟨r, hr, heq⟩ := except_map_ok
        (show (SetIfAbsent sc m k v).map Prod.snd = .ok m2 from h)
      obtain ⟨i, hi, heq2⟩ := except_map_ok hr
      rw [← heq, ← heq2]
      cases hg : mapGet (m.shards.getD i []) k with
      | some v2 => simp [hg]
      | none =>
          simp only [hg]
          exact Get_withShard sc m i _ k2 (by rw [mapGet_mapSet, if_neg hk2])
  | upsert k v cb =>
      have hk2 : k ≠ k2 := hk
      obtain ⟨r, hr, heq⟩ := except_map_ok
        (show (Upsert sc m k v cb).map Prod.snd = .ok m2 from h)
      obtain ⟨i, hi, heq2⟩ := except_map_ok hr
      rw [← heq, ← heq2]
      exact Get_withShard sc m i _ k2 (by rw [mapGet_mapSet, if_neg hk2])
  | removeCb k cb =>
      have hk2 : k ≠ k2 := hk
      obtain ⟨r, hr, heq⟩ := except_map_ok
        (show (RemoveCb sc m k cb).map Prod.snd = .ok m2 from h)
      obtain ⟨i, hi, heq2⟩ := except_map_ok hr
      rw [← heq, ← heq2]
      by_cases hrem : (cb k ((mapGet (m.shards.getD i []) k).getD default)
          (mapGet (m.shards.getD i []) k).isSome
            && (mapGet (m.shards.getD i []) k).isSome) = true
      · simp only [hrem, if_pos]
        exact Get_withShard sc m i _ k2 (by rw [mapGet_mapDel, if_neg hk2])
      · simp only [if_neg hrem]

theorem runOps_error [DecidableEq K] [Inhabited V] (sc : Nat) (e : GoError)
    (ops : List (Op K V)) :
    ops.foldl (fun acc op => acc.bind fun m2 => applyOp sc m2 op)
      (Except.error e : Except GoError (ConcurrentMap K V)) = .error e := by
  induction ops with
  | nil => rfl
  | cons op rest ih => rw [List.foldl_cons]; exact ih

theorem runOps_frame_aux [DecidableEq K] [Inhabited V] {sc : Nat} {k2 : K} :
    ∀ (ops : List (Op K V)) (m m2 : ConcurrentMap K V),
      runOps sc m ops = .ok m2 → (∀ op ∈ ops, op.key ≠ k2) →
      Get sc m2 k2 = Get sc m k2 := by
  intro ops
  induction ops with
  | nil =>
      intro m m2 h hall
      injection h with h2
      rw [h2]
  | cons op rest ih =>
      intro m m2 h hall
      unfold runOps at h
      rw [List.foldl_cons] at h
      cases hstep : applyOp sc m op with
      | error e =>
          rw [show (Except.ok m).bind (fun m2 => applyOp sc m2 op) =
              applyOp sc m op from rfl, hstep, runOps_error] at h
          cases h
      | ok m1 =>
          rw [show (Except.ok m).bind (fun m2 => applyOp sc m2 op) =
              applyOp sc m op from rfl, hstep] at h
          have h1 : runOps sc m1 rest = .ok m2 := h
          have h2 := ih m1 m2 h1 (fun op2 hop2 => hall op2 (by simp [hop2]))
          rw [h2]
          exact applyOp_frame_aux hstep (hall op (by simp))

/-! Lookup through a left fold of map writes: the last write wins, and
what the fold never wrote falls through to the accumulator. -/

theorem mapGet_foldl_mapSet [DecidableEq K] :
    ∀ (l : List (K × V)) (acc : Shard K V) (k : K),
      mapGet (l.foldl (fun a p => mapSet a p.1 p.2) acc) k =
        optOr (mapGet l.reverse k) (mapGet acc k) := by
  intro l
  induction l with
  | nil => intro acc k; rfl
  | cons p rest ih =>
      intro acc k
      obtain ⟨k3, v3⟩ := p
      rw [List.foldl_cons, ih, List.reverse_cons, mapGet_append, optOr_assoc]
      have h2 : mapGet (mapSet acc k3 v3) k =
          optOr (mapGet [(k3, v3)] k) (mapGet acc k) := by
        rw [mapGet_mapSet]
        by_cases h : k3 = k
        · rw [if_pos h]; simp [mapGet, h, optOr]
        · rw [if_neg h]; simp [mapGet, h, optOr]
      rw [h2]

theorem nodup_foldl_mapSet [DecidableEq K] :
    ∀ (l : List (K × V)) (acc : Shard K V), (shardKeys acc).Nodup →
      (shardKeys (l.foldl (fun a p => mapSet a p.1 p.2) acc)).Nodup := by
  intro l
  induction l with
  | nil => intro acc h; exact h
  | cons p rest ih =>
      intro acc h
      rw [List.foldl_cons]
      exact ih _ (nodup_shardKeys_mapSet acc p.1 p.2 h)

/-! Lookup in the concatenation of all shards, when at most one shard can
bind the key. -/

theorem mapGet_flatten_none [DecidableEq K] :
    ∀ (L : List (Shard K V)) (k : K),
      (∀ j, j < L.length → mapGet (L.getD j []) k = none) →
      mapGet L.flatten k = none := by
  intro L
  induction L with
  | nil => intro k h; rfl
  | cons s rest ih =>
      intro k h
      rw [List.flatten_cons, mapGet_append]
      have h0 : mapGet s k = none := h 0 (by simp)
      rw [h0, optOr_none_left]
      exact ih k (fun j hj => h (j + 1) (by simpa using hj))

theorem mapGet_reverse_flatten [DecidableEq K] :
    ∀ (L : List (Shard K V)) (i0 : Nat) (k : K), i0 < L.length →
      (∀ j, j < L.length → j ≠ i0 → mapGet (L.getD j []) k = none) →
      mapGet L.flatten.reverse k = mapGet (L.getD i0 []).reverse k := by
  intro L
  induction L with
  | nil => intro i0 k h; cases h
  | cons s rest ih =>
      intro i0 k hlen hnone
      rw [List.flatten_cons, List.reverse_append, mapGet_append]
      cases i0 with
      | zero =>
          have hrest : mapGet rest.flatten k = none := by
            apply mapGet_flatten_none
            intro j hj
            exact hnone (j + 1) (by simpa using hj) (by simp)
          rw [(mapGet_reverse_eq_none _ _).mpr hrest, optOr_none_left]
          rfl
      | succ i =>
          have hs : mapGet s k = none := hnone 0 (by simp) (by simp)
          rw [(mapGet_reverse_eq_none _ _).mpr hs, optOr_none_right]
          exact ih i k (by simpa using hlen) (fun j hj hne =>
            hnone (j + 1) (by simpa using hj) (by simpa using hne))

/-! The state invariant `Consistent` and how the operations interact
with it. -/

theorem cmGet_create [DecidableEq K] (sc : Nat) (f : K → Nat) (k : K) :
    cmGet sc (create sc f : ConcurrentMap K V) k = none := by
  unfold cmGet create
  rw [getD_replicate]
  rfl

theorem consistent_create [DecidableEq K] (sc : Nat) (f : K → Nat)
    (h : 0 < sc) : Consistent sc (create sc f : ConcurrentMap K V) := by
  refine ⟨rfl, by simp [create], h, ?_, ?_⟩
  · intro i k hi hsome
    unfold create at hsome
    rw [getD_replicate] at hsome
    simp [mapGet] at hsome
  · intro i hi
    unfold create
    rw [getD_replicate]
    simp [shardKeys]

theorem Set_success [DecidableEq K] {sc : Nat} {m : ConcurrentMap K V}
    (k : K) (v : V) (hsome : m.sharding.isSome) (h0 : 0 < sc)
    (hlen : m.shards.length = sc) :
    Set sc m k v = .ok (withShard m (shardingD m k % sc)
      (mapSet (m.shards.getD (shardingD m k % sc) []) k v)) := by
  unfold Set
  rw [getShardIdx_intro (sharding_eq_shardingD hsome)
    (Nat.pos_iff_ne_zero.mp h0) (by rw [hlen]; exact Nat.mod_lt _ h0)]
  rfl

theorem cmGet_Set [DecidableEq K] {sc : Nat} {m m2 : ConcurrentMap K V}
    {k : K} {v : V} (h : Set sc m k v = .ok m2) (k2 : K) :
    m2.sharding = m.sharding ∧ m2.shards.length = m.shards.length ∧
      cmGet sc m2 k2 = (if k = k2 then some v else cmGet sc m k2) := by
  obtain ⟨i, hi, heq⟩ := Set_ok_elim h
  obtain ⟨hsome, h0, hidx, hlen⟩ := getShardIdx_ok_elim hi
  subst heq
  refine ⟨rfl, withShard_length m i _, ?_⟩
  unfold cmGet
  rw [shardingD_withShard]
  by_cases hj : shardingD m k2 % sc = i
  · rw [hj, getD_withShard_self m i _ hlen, mapGet_mapSet]
  · rw [getD_withShard_ne m i _ _ (fun hh => hj hh.symm)]
    by_cases hk : k = k2
    · subst hk
      exact absurd hidx hj
    · rw [if_neg hk]

theorem consistent_Set [DecidableEq K] {sc : Nat} {m m2 : ConcurrentMap K V}
    {k : K} {v : V} (h : Set sc m k v = .ok m2) (hc : Consistent sc m) :
    Consistent sc m2 := by
  obtain ⟨i, hi, heq⟩ := Set_ok_elim h
  obtain ⟨hsome, h0, hidx, hlen⟩ := getShardIdx_ok_elim hi
  obtain ⟨hcsome, hlen2, hpos, hroute, hnodup⟩ := hc
  subst heq
  refine ⟨hcsome, by rw [withShard_length, hlen2], hpos, ?_, ?_⟩
  · intro j k2 hj hsome2
    rw [shardingD_withShard]
    by_cases hji : j = i
    · subst hji
      rw [getD_withShard_self m j _ hlen] at hsome2
      rw [mapGet_mapSet] at hsome2
      by_cases hk : k = k2
      · subst hk
        exact hidx
      · rw [if_neg hk] at hsome2
        exact hroute j k2 hj hsome2
    · rw [getD_withShard_ne m i j _ (fun hh => hji hh.symm)] at hsome2
      exact hroute j k2 hj hsome2
  · intro j hj
    by_cases hji : j = i
    · subst hji
      rw [getD_withShard_self m j _ hlen]
      exact nodup_shardKeys_mapSet _ k v (hnodup j hj)
    · rw [getD_withShard_ne m i j _ (fun hh => hji hh.symm)]
      exact hnodup j hj

theorem foldl_Set_ok [DecidableEq K] {sc : Nat} :
    ∀ (l : List (K × V)) (m : ConcurrentMap K V), Consistent sc m →
      ∃ m2, l.foldl (fun acc p => acc.bind fun m3 => Set sc m3 p.1 p.2)
          (Except.ok m) = .ok m2 ∧ Consistent sc m2 ∧
        (∀ k, cmGet sc m2 k = optOr (mapGet l.reverse k) (cmGet sc m k)) := by
  intro l
  induction l with
  | nil => intro m hc; exact ⟨m, rfl, hc, fun k => rfl⟩
  | cons p rest ih =>
      intro m hc
      obtain ⟨k3, v3⟩ := p
      have hset := Set_success (m := m) k3 v3 hc.1 hc.2.2.1 hc.2.1
      obtain ⟨m2, hfold, hc2, hlook⟩ :=
        ih (withShard m (shardingD m k3 % sc)
          (mapSet (m.shards.getD (shardingD m k3 % sc) []) k3 v3))
          (consistent_Set hset hc)
      refine ⟨m2, ?_, hc2, ?_⟩
      · rw [List.foldl_cons,
          show (Except.ok m).bind (fun m3 => Set sc m3 k3 v3) =
            Set sc m k3 v3 from rfl, hset]
        exact hfold
      · intro k
        rw [hlook k, List.reverse_cons, mapGet_append, optOr_assoc]
        have h3 := (cmGet_Set hset k).2.2
        rw [h3]
        by_cases h : k3 = k
        · simp [mapGet, h, optOr]
        · simp [mapGet, h, optOr]

theorem mapGet_reverse_flatten_consistent [DecidableEq K] {sc : Nat}
    {m : ConcurrentMap K V} (hc : Consistent sc m) (k : K) :
    mapGet m.shards.flatten.reverse k = cmGet sc m k := by
  obtain ⟨hcsome, hlen, hpos, hroute, hnodup⟩ := hc
  have hsc : shardingD m k % sc < sc := Nat.mod_lt _ hpos
  have hi : shardingD m k % sc < m.shards.length := by rw [hlen]; exact hsc
  rw [mapGet_reverse_flatten m.shards (shardingD m k % sc) k hi ?_]
  · exact mapGet_reverse_of_nodup _ k (hnodup _ hsc)
  · intro j hj hne
    cases hg : mapGet (m.shards.getD j []) k with
    | none => rfl
    | some v =>
        have hj2 : j < sc := by rw [← hlen]; exact hj
        have := hroute j k hj2 (by rw [hg]; rfl)
        exact absurd this.symm hne

theorem Items_ok [DecidableEq K] {sc : Nat} {m : ConcurrentMap K V}
    (h0 : 0 < sc) (hlen : m.shards.length = sc) :
    Items sc m =
      .ok (m.shards.flatten.foldl (fun tmp p => mapSet tmp p.1 p.2) []) := by
  unfold Items IterBuffered snapshot
  rw [hlen, if_neg (Nat.pos_iff_ne_zero.mp h0), if_pos rfl]
  rfl

/-! Lemmas about the hash function. -/

theorem foldl_range_getD {A : Type} :
    ∀ (l : List Nat) (g : A → Nat → A) (init : A),
      (List.range l.length).foldl (fun h i => g h (l.getD i 0)) init =
        l.foldl g init := by
  intro l
  induction l with
  | nil => intro g init; rfl
  | cons b rest ih =>
      intro g init
      rw [List.length_cons, List.range_succ_eq_map, List.foldl_cons,
        List.foldl_map]
      exact ih g (g init b)

theorem fnv32_eq_spec_aux :
    ∀ (l : List Nat) (h0 : Nat), (∀ b ∈ l, b < 4294967296) →
      l.foldl (fun hash b => ((hash * 16777619) % 4294967296) ^^^ b) h0 =
        l.foldl
          (fun hash b => (((hash * 16777619) % 4294967296) ^^^ b) % 4294967296)
          h0 := by
  intro l
  induction l with
  | nil => intro h0 _; rfl
  | cons b rest ih =>
      intro h0 hb
      rw [List.foldl_cons, List.foldl_cons]
      have h32 : (4294967296 : Nat) = 2 ^ 32 := by norm_num
      have hmod : (h0 * 16777619) % 4294967296 < 4294967296 :=
        Nat.mod_lt _ (by norm_num)
      have hxor : ((h0 * 16777619) % 4294967296) ^^^ b < 4294967296 := by
        rw [h32]
        exact Nat.xor_lt_two_pow (by rw [← h32]; exact hmod)
          (by rw [← h32]; exact hb b (by simp))
      rw [Nat.mod_eq_of_lt hxor]
      exact ih _ (fun b2 hb2 => hb b2 (by simp [hb2]))

/-- C7: for every string (byte sequence), the default hasher `fnv32`
computes FNV-1a 32-bit exactly as the spec words it (init 2166136261,
prime 16777619, per byte `hash = (hash * prime) xor byte`, arithmetic
modulo 2^32), and the stringer hasher `strfnv32` equals `fnv32` applied to
the stringified key. -/
theorem fnv32_matches_spec :
    (∀ key : List Nat, (∀ b ∈ key, b < 256) → fnv32 key = fnv32Spec key) ∧
      (∀ (A : Type) (toStr : A → List Nat) (k : A),
        strfnv32 toStr k = fnv32 (toStr k)) := by
  constructor
  · intro key hb
    unfold fnv32 fnv32Spec
    rw [foldl_range_getD]
    exact fnv32_eq_spec_aux key 2166136261
      (fun b hbm => lt_trans (hb b hbm) (by norm_num))
  · intro A toStr k
    rfl

/-- Witness for C7 at the two-byte key `[104, 105]` and a concrete
stringer. -/
theorem fnv32_matches_spec_witness :
    fnv32 [104, 105] = fnv32Spec [104, 105] ∧
      strfnv32 (fun n : Nat => [n % 256]) 3 = fnv32 [3 % 256] :=
  ⟨fnv32_matches_spec.1 [104, 105] (by decide),
    fnv32_matches_spec.2 Nat (fun n => [n % 256]) 3⟩

/-- C3: `Upsert` computes `res = cb(found, existingValueOrZero, newValue)`
on the prior binding reported by `Get`, stores `res` under the key, and
returns `res`. -/
theorem upsert_combines_stores_returns [DecidableEq K] [Inhabited V]
    (sc : Nat) (m : ConcurrentMap K V) (k : K) (v w : V) (found : Bool)
    (cb : Bool → V → V → V) (h : Get sc m k = .ok (w, found)) :
    ∃ m2, Upsert sc m k v cb = .ok (cb found w v, m2) ∧
      Get sc m2 k = .ok (cb found w v, true) := by
  obtain ⟨i, hi, heq⟩ := except_map_ok h
  obtain ⟨hsome, h0, hidx, hlen⟩ := getShardIdx_ok_elim hi
  have hw : (mapGet (m.shards.getD i []) k).getD default = w :=
    congrArg Prod.fst heq
  have hf : (mapGet (m.shards.getD i []) k).isSome = found :=
    congrArg Prod.snd heq
  refine ⟨withShard m i (mapSet (m.shards.getD i []) k (cb found w v)),
    ?_, ?_⟩
  · simp only [Upsert, hi, Except.map, hw, hf]
  · unfold Get
    rw [getShardIdx_withShard, hi]
    simp only [Except.map]
    rw [getD_withShard_self m i _ hlen, mapGet_mapSet, if_pos rfl]
    rfl

/-- Witness for C3: the spec scenario, upserting value 1 twice under the
key `"x"` (byte 120) with the additive combine callback leaves 2 stored. -/
theorem upsert_combines_stores_returns_witness :
    ∃ m2, Upsert 32 (New Nat 32) [120] 1
        (fun exist cur new => if exist then cur + new else new) =
          .ok (1, m2) ∧
      ∃ m3, Upsert 32 m2 [120] 1
          (fun exist cur new => if exist then cur + new else new) =
            .ok (2, m3) ∧
        Get 32 m3 [120] = .ok (2, true) := by
  obtain ⟨m2, h1, h2⟩ := upsert_combines_stores_returns 32 (New Nat 32)
    [120] 1 0 false (fun exist cur new => if exist then cur + new else new)
    (by rfl)
  refine ⟨m2, h1, ?_⟩
  obtain ⟨m3, h3, h4⟩ := upsert_combines_stores_returns 32 m2 [120] 1 1 true
    (fun exist cur new => if exist then cur + new else new) h2
  exact ⟨m3, h3, h4⟩

/-- C5: `SetIfAbsent` returns true and stores the value exactly when the
key was absent beforehand; when the key was present it returns false and
leaves the map unchanged. -/
theorem setIfAbsent_contract [DecidableEq K] [Inhabited V] (sc : Nat)
    (m : ConcurrentMap K V) (k : K) (v w : V) (found : Bool)
    (h : Get sc m k = .ok (w, found)) :
    ∃ m2, SetIfAbsent sc m k v = .ok (!found, m2) ∧
      (found = true → m2 = m) ∧
      (found = false → Get sc m2 k = .ok (v, true)) := by
  obtain ⟨i, hi, heq⟩ := except_map_ok h
  obtain ⟨hsome, h0, hidx, hlen⟩ := getShardIdx_ok_elim hi
  have hf : (mapGet (m.shards.getD i []) k).isSome = found :=
    congrArg Prod.snd heq
  cases hg : mapGet (m.shards.getD i []) k with
  | some v2 =>
      have hft : found = true := by rw [← hf, hg]; rfl
      subst hft
      refine ⟨m, ?_, fun _ => rfl, fun hcon => absurd hcon (by simp)⟩
      simp only [SetIfAbsent, hi, Except.map, hg]
      rfl
  | none =>
      have hff : found = false := by rw [← hf, hg]; rfl
      subst hff
      refine ⟨withShard m i (mapSet (m.shards.getD i []) k v), ?_,
        fun hcon => absurd hcon (by simp), fun _ => ?_⟩
      · simp only [SetIfAbsent, hi, Except.map, hg]
        rfl
      · unfold Get
        rw [getShardIdx_withShard, hi]
        simp only [Except.map]
        rw [getD_withShard_self m i _ hlen, mapGet_mapSet, if_pos rfl]
        rfl

/-- Witness for C5: on an empty one-shard map, `SetIfAbsent` stores 7
under key 5 and returns true; repeated on the resulting map it returns
false and leaves the map unchanged. -/
theorem setIfAbsent_contract_witness :
    ∃ m2, SetIfAbsent 1
        ({ shards := [[]], sharding := some (fun _ => 0) } : ConcurrentMap Nat Nat)
        5 7 = .ok (true, m2) ∧
      Get 1 m2 5 = .ok (7, true) ∧
      SetIfAbsent 1 m2 5 9 = .ok (false, m2) := by
  obtain ⟨m2, h1, _, h3⟩ := setIfAbsent_contract 1
    ({ shards := [[]], sharding := some (fun _ => 0) } : ConcurrentMap Nat Nat)
    5 7 0 false (by rfl)
  have hget : Get 1 m2 5 = .ok (7, true) := h3 rfl
  obtain ⟨m3, h4, h5, _⟩ := setIfAbsent_contract 1 m2 5 9 7 true hget
  refine ⟨m2, h1, hget, ?_⟩
  have h6 := h4
  rw [h5 rfl] at h6
  exact h6

/-- C6: `RemoveCb` evaluates the callback on the current binding, deletes
the key exactly when the callback answered true and the key was present,
leaves the map unchanged otherwise, and returns the callback answer even
when the key was absent. -/
theorem removeCb_contract [DecidableEq K] [Inhabited V] (sc : Nat)
    (m : ConcurrentMap K V) (k : K) (w : V) (found : Bool)
    (cb : K → V → Bool → Bool) (h : Get sc m k = .ok (w, found)) :
    ∃ m2, RemoveCb sc m k cb = .ok (cb k w found, m2) ∧
      ((cb k w found && found) = true →
        Get sc m2 k = .ok (default, false) ∧
          ∀ k2, k2 ≠ k → Get sc m2 k2 = Get sc m k2) ∧
      ((cb k w found && found) = false → m2 = m) := by
  obtain ⟨i, hi, heq⟩ := except_map_ok h
  obtain ⟨hsome, h0, hidx, hlen⟩ := getShardIdx_ok_elim hi
  have hw : (mapGet (m.shards.getD i []) k).getD default = w :=
    congrArg Prod.fst heq
  have hf : (mapGet (m.shards.getD i []) k).isSome = found :=
    congrArg Prod.snd heq
  by_cases hrem : (cb k w found && found) = true
  · refine ⟨withShard m i (mapDel (m.shards.getD i []) k), ?_,
      fun _ => ⟨?_, ?_⟩, fun hcon => absurd hrem (by rw [hcon]; simp)⟩
    · simp only [RemoveCb, hi, Except.map, hw, hf, hrem, if_pos]
    · unfold Get
      rw [getShardIdx_withShard, hi]
      simp only [Except.map]
      rw [getD_withShard_self m i _ hlen, mapGet_mapDel, if_pos rfl]
      rfl
    · intro k2 hk2
      exact Get_withShard sc m i _ k2
        (by rw [mapGet_mapDel, if_neg (fun hh => hk2 hh.symm)])
  · refine ⟨m, ?_, fun hcon => absurd hcon hrem, fun _ => rfl⟩
    simp only [RemoveCb, hi, Except.map, hw, hf]
    rw [if_neg hrem]

/-- Witness for C6: with a callback that answers the presence flag, the
present key 5 is deleted and true is returned. -/
theorem removeCb_contract_witness :
    ∃ m2, RemoveCb 1
        ({ shards := [[(5, 7)]], sharding := some (fun _ => 0) } :
          ConcurrentMap Nat Nat)
        5 (fun _ _ exist => exist) = .ok (true, m2) ∧
      Get 1 m2 5 = .ok (0, false) := by
  obtain ⟨m2, h1, h2, _⟩ := removeCb_contract 1
    ({ shards := [[(5, 7)]], sharding := some (fun _ => 0) } : ConcurrentMap Nat Nat)
    5 7 true (fun _ _ exist => exist) (by rfl)
  exact ⟨m2, h1, (h2 rfl).1⟩

/-- C9: when the external decoder rejects the input, `UnmarshalJSON`
returns that error and the map is exactly what it was before the call: no
key is set before the whole input has been decoded. -/
theorem unmarshal_error_leaves_map_unchanged [DecidableEq K]
    (c : Codec K V B) (sc : Nat) (m : ConcurrentMap K V) (b : B)
    (e : String) (h : c.unmarshal b = .error e) :
    UnmarshalJSON c sc m b = (some e, .ok m) := by
  unfold UnmarshalJSON
  rw [h]

/-- Witness for C9 with an always-failing decoder on a one-entry map. -/
theorem unmarshal_error_leaves_map_unchanged_witness :
    UnmarshalJSON
      ({ marshal := fun _ => .ok 0, unmarshal := fun _ => .error "bad" } :
        Codec Nat Nat Nat) 1
      ({ shards := [[(5, 7)]], sharding := some (fun _ => 0) } :
        ConcurrentMap Nat Nat) 3 =
      (some "bad",
        .ok ({ shards := [[(5, 7)]], sharding := some (fun _ => 0) } :
          ConcurrentMap Nat Nat)) :=
  unmarshal_error_leaves_map_unchanged
    ({ marshal := fun _ => .ok 0, unmarshal := fun _ => .error "bad" } :
      Codec Nat Nat Nat) 1
    ({ shards := [[(5, 7)]], sharding := some (fun _ => 0) } : ConcurrentMap Nat Nat)
    3 "bad" rfl

/-- C10: a keyed mutating operation (`Set`, `Remove`, `Pop`,
`SetIfAbsent`, `Upsert`, `RemoveCb`) that succeeds leaves the binding of
every other key exactly as `Get` observed it before. -/
theorem keyed_op_frame [DecidableEq K] [Inhabited V] (sc : Nat)
    (m m2 : ConcurrentMap K V) (op : Op K V) (k2 : K)
    (h : applyOp sc m op = .ok m2) (hk : op.key ≠ k2) :
    Get sc m2 k2 = Get sc m k2 :=
  applyOp_frame_aux h hk

/-- Witness for C10: setting key 5 in a one-shard map leaves the binding
of key 6 unchanged. -/
theorem keyed_op_frame_witness :
    Get 1 ({ shards := [[(6, 1), (5, 7)]], sharding := some (fun _ => 0) } :
        ConcurrentMap Nat Nat) 6 =
      Get 1 ({ shards := [[(6, 1)]], sharding := some (fun _ => 0) } :
        ConcurrentMap Nat Nat) 6 :=
  keyed_op_frame 1
    ({ shards := [[(6, 1)]], sharding := some (fun _ => 0) } : ConcurrentMap Nat Nat)
    ({ shards := [[(6, 1), (5, 7)]], sharding := some (fun _ => 0) } :
      ConcurrentMap Nat Nat)
    (Op.set 5 7) 6 rfl (by decide)

/-- Counterexample to C1: a map constructed while the global shard count
was 2 answers `Get` differently once the global is changed to 1, because
`GetShard` routes by `hash mod` the call-time global. Under count 2 the
stored key 5 (hash 1) is found in shard 1; under count 1 the lookup is
routed to shard 0 and misses. -/
theorem shard_count_change_alters_get :
    ((Set 2 (create 2 (fun _ => 1) : ConcurrentMap Nat Nat) 5 7).map
        (fun m1 => Get 2 m1 5) = .ok (.ok (7, true))) ∧
      ((Set 2 (create 2 (fun _ => 1) : ConcurrentMap Nat Nat) 5 7).map
        (fun m1 => Get 1 m1 5) = .ok (.ok (0, false))) ∧
      (Set 2 (create 2 (fun _ => 1) : ConcurrentMap Nat Nat) 5 7).map
          (fun m1 => Get 2 m1 5) ≠
        (Set 2 (create 2 (fun _ => 1) : ConcurrentMap Nat Nat) 5 7).map
          (fun m1 => Get 1 m1 5) := by
  refine ⟨rfl, rfl, ?_⟩
  intro h
  rw [show (Set 2 (create 2 (fun _ => 1) : ConcurrentMap Nat Nat) 5 7).map
      (fun m1 => Get 2 m1 5) = .ok (.ok (7, true)) from rfl,
    show (Set 2 (create 2 (fun _ => 1) : ConcurrentMap Nat Nat) 5 7).map
      (fun m1 => Get 1 m1 5) = .ok (.ok (0, false)) from rfl] at h
  injection h with h2
  injection h2 with h3
  injection h3 with h4 h5
  cases h4

/-- C1 amended: an already-constructed map does not depend only on the
shard count in force at construction; `GetShard` routing reads the
process-wide `SHARD_COUNT` at call time. On a map constructed with count
`N`, a lookup under call-time count `sc` routes to index `hash mod sc`,
which succeeds exactly when that index is below `N`; behaviour is the
constructed one whenever the call-time count still equals `N`. -/
theorem shard_routing_uses_call_time_count (N : Nat) (f : K → Nat) (k : K)
    (hN : 0 < N) (sc : Nat) (hsc : 0 < sc) :
    (create N f : ConcurrentMap K V).shards.length = N ∧
      getShardIdx sc (create N f : ConcurrentMap K V) k =
        (if f k % sc < N then .ok (f k % sc) else .error .indexOutOfRange) ∧
      getShardIdx N (create N f : ConcurrentMap K V) k = .ok (f k % N) := by
  have hlen : (create N f : ConcurrentMap K V).shards.length = N := by
    simp [create]
  refine ⟨hlen, ?_, ?_⟩
  · by_cases hlt : f k % sc < N
    · rw [if_pos hlt]
      exact getShardIdx_intro rfl (Nat.pos_iff_ne_zero.mp hsc)
        (by rw [hlen]; exact hlt)
    · rw [if_neg hlt]
      show (if sc = 0 then Except.error GoError.divideByZero
        else if f k % sc < (List.replicate N ([] : Shard K V)).length then
          Except.ok (f k % sc)
        else Except.error GoError.indexOutOfRange) =
        Except.error GoError.indexOutOfRange
      rw [if_neg (Nat.pos_iff_ne_zero.mp hsc),
        if_neg (by rw [List.length_replicate]; exact hlt)]
  · exact getShardIdx_intro rfl (Nat.pos_iff_ne_zero.mp hN)
      (by rw [hlen]; exact Nat.mod_lt _ hN)

/-- Witness for the amended C1 at construction count 2 and call-time
count 1. -/
theorem shard_routing_uses_call_time_count_witness :
    (create 2 (fun _ => 1) : ConcurrentMap Nat Nat).shards.length = 2 ∧
      getShardIdx 1 (create 2 (fun _ => 1) : ConcurrentMap Nat Nat) 5 =
        (if 1 % 1 < 2 then .ok (1 % 1) else .error .indexOutOfRange) ∧
      getShardIdx 2 (create 2 (fun _ => 1) : ConcurrentMap Nat Nat) 5 =
        .ok (1 % 2) :=
  shard_routing_uses_call_time_count 2 (fun _ => 1) 5 (by decide) 1
    (by decide)

/-- Counterexample to C2: on a zero-value map, `Get` under the default
global count 32 aborts with a nil-function-pointer dereference — the nil
`sharding` field is called before any shard indexing — not with the
signal identifying the map as uninitialized, and `IterCb` does not abort
at all: it silently visits nothing. -/
theorem uninitialized_get_wrong_signal :
    (Get 32 (zeroValueMap : ConcurrentMap Nat Nat) 0 =
        .error .nilFunctionCall) ∧
      (Get 32 (zeroValueMap : ConcurrentMap Nat Nat) 0 ≠
        .error .notInitialized) ∧
      IterCb (zeroValueMap : ConcurrentMap Nat Nat) = [] := by
  refine ⟨rfl, ?_, rfl⟩
  intro h
  rw [show Get 32 (zeroValueMap : ConcurrentMap Nat Nat) 0 =
      .error .nilFunctionCall from rfl] at h
  injection h with h2
  cases h2

/-- C2 amended: on a zero-value map only the snapshot-based bulk
operations (`snapshot`, `Iter`, `IterBuffered`, `Items`, and through them
`MarshalJSON` and `Clear`) raise the panic identifying the map as not
initialized; every keyed operation panics with a nil-function-pointer
dereference when `GetShard` calls the nil `sharding` field,
`Count`/`Keys` abort with a generic index-out-of-range runtime error, and
`IterCb` silently proceeds as a no-op. -/
theorem uninitialized_map_operations [DecidableEq K] [Inhabited V]
    (sc : Nat) (k : K) (v : V) (hsc : 0 < sc) :
    Get sc (zeroValueMap : ConcurrentMap K V) k =
        .error .nilFunctionCall ∧
      Set sc (zeroValueMap : ConcurrentMap K V) k v =
        .error .nilFunctionCall ∧
      Remove sc (zeroValueMap : ConcurrentMap K V) k =
        .error .nilFunctionCall ∧
      Pop sc (zeroValueMap : ConcurrentMap K V) k =
        .error .nilFunctionCall ∧
      Count sc (zeroValueMap : ConcurrentMap K V) =
        .error .indexOutOfRange ∧
      Keys sc (zeroValueMap : ConcurrentMap K V) =
        .error .indexOutOfRange ∧
      snapshot sc (zeroValueMap : ConcurrentMap K V) =
        .error .notInitialized ∧
      IterBuffered sc (zeroValueMap : ConcurrentMap K V) =
        .error .notInitialized ∧
      Items sc (zeroValueMap : ConcurrentMap K V) =
        .error .notInitialized ∧
      IterCb (zeroValueMap : ConcurrentMap K V) = [] := by
  have hidx : getShardIdx sc (zeroValueMap : ConcurrentMap K V) k =
      .error .nilFunctionCall := rfl
  have hcount : Count sc (zeroValueMap : ConcurrentMap K V) =
      .error .indexOutOfRange := by
    unfold Count zeroValueMap
    rw [if_neg (by simp only [List.length_nil]; omega)]
  refine ⟨?_, ?_, ?_, ?_, hcount, ?_, rfl, rfl, rfl, rfl⟩
  · unfold Get; rw [hidx]; rfl
  · unfold Set; rw [hidx]; rfl
  · unfold Remove; rw [hidx]; rfl
  · unfold Pop; rw [hidx]; rfl
  · unfold Keys; rw [hcount]

/-- Witness for the amended C2 at the default global count 32. -/
theorem uninitialized_map_operations_witness :
    Get 32 (zeroValueMap : ConcurrentMap Nat Nat) 1 =
        .error .nilFunctionCall ∧
      Count 32 (zeroValueMap : ConcurrentMap Nat Nat) =
        .error .indexOutOfRange ∧
      snapshot 32 (zeroValueMap : ConcurrentMap Nat Nat) =
        .error .notInitialized ∧
      IterCb (zeroValueMap : ConcurrentMap Nat Nat) = [] :=
  ⟨(uninitialized_map_operations 32 1 0 (by decide)).1,
    (uninitialized_map_operations 32 1 0 (by decide)).2.2.2.2.1,
    (uninitialized_map_operations 32 1 0 (by decide)).2.2.2.2.2.2.1,
    (uninitialized_map_operations 32 1 0 (by decide)).2.2.2.2.2.2.2.2.2⟩

/-- C4: after `Set(k, v)`, `Get(k)` returns `(v, true)`; this persists
across any successful sequence of keyed operations that never targets
`k`; and after `Remove(k)` on any map, `Get(k)` returns the zero value
with found = false. -/
theorem set_get_remove_contract [DecidableEq K] [Inhabited V] (sc : Nat)
    (m m1 : ConcurrentMap K V) (k : K) (v : V)
    (hset : Set sc m k v = .ok m1) :
    Get sc m1 k = .ok (v, true) ∧
      (∀ (ops : List (Op K V)) (m2 : ConcurrentMap K V),
        (∀ op ∈ ops, op.key ≠ k) → runOps sc m1 ops = .ok m2 →
          Get sc m2 k = .ok (v, true)) ∧
      (∀ (m0 m3 : ConcurrentMap K V), Remove sc m0 k = .ok m3 →
        Get sc m3 k = .ok (default, false)) := by
  refine ⟨Get_after_Set_aux hset, ?_, fun m0 m3 h => Get_after_Remove_aux h⟩
  intro ops m2 hall hrun
  rw [runOps_frame_aux ops m1 m2 hrun hall]
  exact Get_after_Set_aux hset

/-- Witness for C4: set key 5 to 7 in a one-shard map, run two operations
on key 6, observe `Get 5` unchanged; then remove key 5 and observe
`(0, false)`. -/
theorem set_get_remove_contract_witness :
    ∃ m1, Set 1
        ({ shards := [[]], sharding := some (fun _ => 0) } : ConcurrentMap Nat Nat)
        5 7 = .ok m1 ∧
      Get 1 m1 5 = .ok (7, true) ∧
      (∃ m2, runOps 1 m1 [Op.set 6 9, Op.remove 6] = .ok m2 ∧
        Get 1 m2 5 = .ok (7, true)) ∧
      (∃ m3, Remove 1 m1 5 = .ok m3 ∧ Get 1 m3 5 = .ok (0, false)) := by
  have hset : Set 1
      ({ shards := [[]], sharding := some (fun _ => 0) } : ConcurrentMap Nat Nat)
      5 7 =
        .ok ({ shards := [[(5, 7)]], sharding := some (fun _ => 0) } :
          ConcurrentMap Nat Nat) := rfl
  obtain ⟨h1, h2, h3⟩ := set_get_remove_contract 1
    ({ shards := [[]], sharding := some (fun _ => 0) } : ConcurrentMap Nat Nat)
    ({ shards := [[(5, 7)]], sharding := some (fun _ => 0) } : ConcurrentMap Nat Nat)
    5 7 hset
  refine ⟨_, hset, h1, ?_, ?_⟩
  · refine ⟨{ shards := [[(5, 7)]], sharding := some (fun _ => 0) }, rfl, ?_⟩
    apply h2 [Op.set 6 9, Op.remove 6]
    · intro op hop
      simp only [List.mem_cons, List.not_mem_nil, or_false] at hop
      rcases hop with rfl | rfl
      · decide
      · decide
    · rfl
  · exact ⟨{ shards := [[]], sharding := some (fun _ => 0) }, rfl,
      h3 ({ shards := [[(5, 7)]], sharding := some (fun _ => 0) }) _ rfl⟩

/-- C8: unmarshaling the bytes produced by marshaling an initialized map
into a freshly constructed empty map succeeds with no error and yields a
map whose `Items` agree, as a key-to-value mapping, with the `Items` of
the original at marshaling time. The external codec is assumed to decode
its own encoding of the snapshot back to itself. -/
theorem marshal_unmarshal_round_trip [DecidableEq K] (c : Codec K V B)
    (sc : Nat) (m : ConcurrentMap K V) (f2 : K → Nat) (t : List (K × V))
    (b : B) (hsc : 0 < sc) (hlen : m.shards.length = sc)
    (hitems : Items sc m = .ok t)
    (_hmarshal : MarshalJSON c sc m = .ok (.ok b))
    (hround : c.unmarshal b = .ok t) :
    ∃ m2, UnmarshalJSON c sc (create sc f2 : ConcurrentMap K V) b =
        (none, .ok m2) ∧
      ∃ t2, Items sc m2 = .ok t2 ∧ ∀ k, mapGet t2 k = mapGet t k := by
  have ht : t = m.shards.flatten.foldl (fun tmp p => mapSet tmp p.1 p.2) [] := by
    have h2 := Items_ok hsc hlen
    rw [hitems] at h2
    injection h2 with h3
  have htnodup : (shardKeys t).Nodup := by
    rw [ht]
    exact nodup_foldl_mapSet _ [] (by simp [shardKeys])
  obtain ⟨m2, hfold, hc2, hlook⟩ :=
    foldl_Set_ok t (create sc f2) (consistent_create sc f2 hsc)
  have hu : UnmarshalJSON c sc (create sc f2 : ConcurrentMap K V) b =
      (none, .ok m2) := by
    unfold UnmarshalJSON
    rw [hround]
    show ((none : Option String),
      t.foldl (fun acc p => acc.bind fun m3 => Set sc m3 p.1 p.2)
        (Except.ok (create sc f2 : ConcurrentMap K V))) =
      (none, Except.ok m2)
    rw [hfold]
  refine ⟨m2, hu, ?_⟩
  refine ⟨_, Items_ok hsc hc2.2.1, ?_⟩
  intro k
  rw [mapGet_foldl_mapSet,
    show mapGet ([] : Shard K V) k = none from rfl, optOr_none_right,
    mapGet_reverse_flatten_consistent hc2 k, hlook k, cmGet_create,
    optOr_none_right]
  exact mapGet_reverse_of_nodup t k htnodup

/-- Witness for C8 with the identity codec on a one-entry, one-shard
map. -/
theorem marshal_unmarshal_round_trip_witness :
    ∃ m2, UnmarshalJSON
        ({ marshal := fun l => .ok l, unmarshal := fun x => .ok x } :
          Codec Nat Nat (List (Nat × Nat))) 1
        (create 1 (fun _ => 0) : ConcurrentMap Nat Nat) [(5, 7)] =
          (none, .ok m2) ∧
      ∃ t2, Items 1 m2 = .ok t2 ∧ ∀ k, mapGet t2 k = mapGet [(5, 7)] k :=
  marshal_unmarshal_round_trip
    ({ marshal := fun l => .ok l, unmarshal := fun x => .ok x } :
      Codec Nat Nat (List (Nat × Nat))) 1
    ({ shards := [[(5, 7)]], sharding := some (fun _ => 0) } : ConcurrentMap Nat Nat)
    (fun _ => 0) [(5, 7)] [(5, 7)] (by decide) rfl rfl rfl rfl

end Cmap
